import Mathlib

/-!
Shallow embedding of the interactive-shell agent (`src/lib.rs` and
`src/bin/agent.rs`): the request/response data model, the session registry,
the output-capture polling loop of `exec_command`, the echoed-command
removal heuristic, command normalization, and the per-connection handler.

Strings are modelled as `List Char`, raw PTY bytes as `List Nat`.  Real
time is modelled discretely, as the claims direct: the initial sleep
advances time by the 100 ms warm-up interval and each loop iteration by
the 50 ms poll interval.  Bytes appended to the shared output buffer by
the reader thread are modelled by a schedule `sched : Nat → List Nat`
giving the bytes that arrived between poll `n - 1` and poll `n` (since a
non-empty poll always drains the whole buffer, the buffer content at
poll `n` is exactly the bytes appended since the previous poll, plus any
initial leftover at poll 0).  External collaborators (serde_json parsing
and serialization, the ANSI-escape stripping filter, PTY spawning) are
taken as parameters of the corresponding functions.
-/

namespace InteractiveShell

/-- Line-terminator predicate used by `exec_command`'s
`trim_start_matches(|c| c == '\r' || c == '\n')`. -/
def isLineTerm (c : Char) : Bool := c == '\r' || c == '\n'

/-- Model of Rust `str::trim`: drop whitespace from both ends. -/
def trimChars (s : List Char) : List Char :=
  ((s.dropWhile Char.isWhitespace).reverse.dropWhile Char.isWhitespace).reverse

/-- Worker for `findSub`: first index `≥ i` (counting from the start of the
original list) at which `pat` occurs in the remaining suffix `s`. -/
def findSubGo (pat : List Char) : List Char → Nat → Option Nat
  | [], i => if pat.isPrefixOf [] then some i else none
  | c :: t, i => if pat.isPrefixOf (c :: t) then some i else findSubGo pat t (i + 1)

/-- Model of Rust `str::find(pattern)`: index of the first occurrence of
`pat` in `s` (`some 0` for the empty pattern, as in Rust). -/
def findSub (pat s : List Char) : Option Nat := findSubGo pat s 0

/-- The echoed-command removal heuristic of `exec_command` (agent.rs lines
230-242): trim the command, look for its first occurrence in the cleaned
output; if found within the first 100 characters, drop everything up to
the end of the occurrence plus any immediately following line
terminators; otherwise return the cleaned output unchanged. -/
def removeEcho (command cleaned : List Char) : List Char :=
  let trimmedCmd := trimChars command
  match findSub trimmedCmd cleaned with
  | some idx =>
      if idx < 100 then
        (cleaned.drop (idx + trimmedCmd.length)).dropWhile isLineTerm
      else cleaned
  | none => cleaned

/-- Command normalization of `exec_command` (agent.rs lines 153-156): append
a newline only when the command does not already end with one. -/
def normalizeCommand (cmd : List Char) : List Char :=
  if cmd.getLast? = some '\n' then cmd else cmd ++ ['\n']

/-- Number of trailing newline characters of a string; used to state what
"ends in exactly one line terminator" means. -/
def trailingNewlineCount (s : List Char) : Nat :=
  (s.reverse.takeWhile (fun c => c == '\n')).length

/-- Observable actions on the session's input sink. -/
inductive SinkEvent where
  | write (data : List Char)
  | flush
  deriving DecidableEq

/-- The write step of `exec_command` (agent.rs lines 152-171): write the
normalized command to the PTY writer, then flush it. -/
def writeCommand (cmd : List Char) : List SinkEvent :=
  [SinkEvent.write (normalizeCommand cmd), SinkEvent.flush]

/-- Model of `q.clear()` on the session's output buffer (agent.rs lines
147-150): whatever the buffer held is discarded. -/
def clearBuffer (_b : List Nat) : List Nat := []

/-- One discrete execution of the capture polling loop of `exec_command`
(agent.rs lines 205-225).  Arguments: remaining `fuel` (enough is supplied
by `captureLoop` for the hard timeout to fire first), poll index `n`
(poll `n` happens at elapsed time `100 + 50 * n` ms), leftover buffer
content `buf` seen by the first poll, accumulator `cap`, last-data-seen
time `ld`, and the has-any-data flag `hd`.  Returns the accumulator and
the elapsed time at which the loop exited. -/
def capGo (timeout : Nat) (sched : Nat → List Nat) :
    Nat → Nat → List Nat → List Nat → Nat → Bool → List Nat × Nat
  | 0, n, _, cap, _, _ => (cap, 100 + 50 * n)
  | fuel + 1, n, buf, cap, ld, hd =>
    if 100 + 50 * n > timeout then (cap, 100 + 50 * n)
    else if buf ++ sched n = [] then
      if hd = true ∧ 100 + 50 * n - ld > 300 then (cap, 100 + 50 * n)
      else capGo timeout sched fuel (n + 1) [] cap ld hd
    else capGo timeout sched fuel (n + 1) [] (cap ++ (buf ++ sched n)) (100 + 50 * n) true

/-- The capture loop started right after the command write: 100 ms warm-up
sleep, then polling every 50 ms.  `last_data_time` is initialized to the
current instant after the warm-up (elapsed time 100), `has_data` to
`false`.  The fuel `timeout / 50 + 1` is enough for the hard-timeout
check to fire before the fuel runs out. -/
def captureLoop (buf0 : List Nat) (timeout : Nat) (sched : Nat → List Nat) : List Nat × Nat :=
  capGo timeout sched (timeout / 50 + 1) 0 buf0 [] 100 false

/-- Steps 1-5 of the capture algorithm: clear the leftover buffer `pre`,
then run the polling loop against the append schedule. -/
def execCapture (pre : List Nat) (timeout : Nat) (sched : Nat → List Nat) : List Nat × Nat :=
  captureLoop (clearBuffer pre) timeout sched

/-- The (last-data-seen time, has-any-data) state the loop is in when
entering poll `n`, assuming it has not stopped before. -/
def stateAt (sched : Nat → List Nat) : Nat → Nat × Bool
  | 0 => (100, false)
  | n + 1 => if sched n = [] then stateAt sched n else (100 + 50 * n, true)

/-- The stopping condition the code actually implements at poll `n`: hard
timeout, or (buffer empty at this poll, some data already seen, and more
than 300 ms since the last drain). -/
abbrev codeStop (timeout : Nat) (sched : Nat → List Nat) (n : Nat) : Prop :=
  100 + 50 * n > timeout ∨
    (sched n = [] ∧ (stateAt sched n).2 = true ∧ 100 + 50 * n - (stateAt sched n).1 > 300)

/-- Modelled from the claim wording, for comparison with `codeStop`: stop
at poll `n` when the hard timeout is exceeded, or when at least one
non-empty drain has occurred and more than 300 ms have passed since the
last drain — with no requirement that the buffer be empty at this poll. -/
abbrev claimStopSpec (timeout : Nat) (sched : Nat → List Nat) (n : Nat) : Prop :=
  100 + 50 * n > timeout ∨
    ((stateAt sched n).2 = true ∧ 100 + 50 * n - (stateAt sched n).1 > 300)

/-- Append schedule exhibiting a burst of output arriving after more than
300 ms of silence: one byte available at poll 0 (time 100), then nothing
until one more byte available at poll 7 (time 450). -/
def burstSched : Nat → List Nat := fun n => if n = 0 then [1] else if n = 7 then [2] else []

/-- The session record of agent.rs: for the purposes of the verified
claims only the shared output buffer content matters; the writer and the
kill channel are modelled by the functions that use them. -/
structure Session where
  outputQueue : List Nat
  deriving DecidableEq

/-- The uniform response record of `src/lib.rs`. -/
structure AgentResponse where
  success : Bool
  session_id : Option (List Char)
  output : List Char
  exit_code : Option Int
  error : Option (List Char)
  deriving DecidableEq

/-- The request union of `src/lib.rs`. -/
inductive AgentRequest where
  | StartSession (user : Option (List Char))
  | ExecCommand (session_id : List Char) (command : List Char) (timeout_ms : Nat)
  | CloseSession (session_id : List Char)
  deriving DecidableEq

/-- The global `SESSIONS : DashMap<String, Session>` modelled as an
association list. -/
abbrev Registry := List (List Char × Session)

/-- Model of `SESSIONS.get(&id)`: first entry with the given key. -/
def lookupReg (reg : Registry) (id : List Char) : Option Session :=
  (reg.find? (fun p => p.1 == id)).map (fun p => p.2)

/-- Model of `SESSIONS.insert(id, session)`. -/
def insertReg (reg : Registry) (id : List Char) (s : Session) : Registry :=
  (id, s) :: reg.filter (fun p => !(p.1 == id))

/-- Model of `SESSIONS.remove(&id)`: the removed entry (if any) and the
remaining map. -/
def removeReg (reg : Registry) (id : List Char) : Option Session × Registry :=
  (lookupReg reg id, reg.filter (fun p => !(p.1 == id)))

/-- `start_session` (agent.rs lines 100-128).  The freshly generated UUID
and the outcome of `spawn_shell` are parameters; on spawn success the
session is inserted and a success response carrying the id returned, on
failure a failure response is returned and the registry is untouched. -/
def start_session (reg : Registry) (freshId : List Char)
    (spawn : Except (List Char) Session) : Registry × AgentResponse :=
  match spawn with
  | Except.ok s =>
      (insertReg reg freshId s,
        { success := true, session_id := some freshId,
          output := "Session started".toList, exit_code := none, error := none })
  | Except.error e =>
      (reg,
        { success := false, session_id := none, output := [], exit_code := none,
          error := some (("Failed to spawn shell: ".toList) ++ e) })

/-- `close_session` (agent.rs lines 262-281).  Returns the new registry,
the response, and whether the kill signal was fired. -/
def close_session (reg : Registry) (id : List Char) : Registry × AgentResponse × Bool :=
  match removeReg reg id with
  | (some _, reg2) =>
      (reg2,
        { success := true, session_id := some id, output := "Session closed".toList,
          exit_code := none, error := none }, true)
  | (none, _) =>
      (reg,
        { success := false, session_id := some id, output := [], exit_code := none,
          error := some ("Session not found".toList) }, false)

/-- `exec_command` (agent.rs lines 130-260).  `writeOk`/`writeErr` model
the outcome of the PTY write, `sched` the bytes the reader thread appends
while the capture loop runs, and `clean` the external
`strip_ansi_escapes::strip` + `from_utf8_lossy` bytes-to-text filter. -/
def exec_command (reg : Registry) (id command : List Char) (timeoutMs : Nat)
    (writeOk : Bool) (writeErr : List Char) (sched : Nat → List Nat)
    (clean : List Nat → List Char) : AgentResponse :=
  match lookupReg reg id with
  | some s =>
      if writeOk = false then
        { success := false, session_id := some id, output := [], exit_code := none,
          error := some (("Failed to write to pty: ".toList) ++ writeErr) }
      else
        let captured := (execCapture s.outputQueue timeoutMs sched).1
        { success := true, session_id := some id,
          output := removeEcho command (clean captured), exit_code := none, error := none }
  | none =>
      { success := false, session_id := some id, output := [], exit_code := none,
        error := some ("Session not found".toList) }

/-- `handle_client` (agent.rs lines 48-86) up to the response value: an
empty or whitespace-only request line ends the handler with no response;
a line that fails to parse yields a failure envelope; otherwise the
request is dispatched.  `parse` models `serde_json::from_str`, `process`
models `process_request`. -/
def handle_client (parse : List Char → Except (List Char) AgentRequest)
    (process : AgentRequest → AgentResponse) (line : List Char) : Option AgentResponse :=
  if trimChars line = [] then none
  else
    match parse line with
    | Except.error e =>
        some { success := false, session_id := none, output := [], exit_code := none,
               error := some (("Invalid Request: ".toList) ++ e) }
    | Except.ok r => some (process r)

/-- The wire messages `handle_client` emits on the connection: every
response is written as its serialization followed by a newline; `ser`
models `serde_json::to_string`. -/
def handleClientWire (ser : AgentResponse → List Char)
    (parse : List Char → Except (List Char) AgentRequest)
    (process : AgentRequest → AgentResponse) (line : List Char) : List (List Char) :=
  match handle_client parse process line with
  | none => []
  | some r => [ser r ++ ['\n']]

/-! Helper lemmas about the registry model. -/

theorem lookupReg_insert_self (reg : Registry) (id : List Char) (s : Session) :
    lookupReg (insertReg reg id s) id = some s := by
  simp [lookupReg, insertReg, List.find?_cons_of_pos]

theorem filter_of_lookup_none (reg : Registry) (id : List Char)
    (h : lookupReg reg id = none) : reg.filter (fun p => !(p.1 == id)) = reg := by
  rw [List.filter_eq_self]
  rw [lookupReg, Option.map_eq_none', List.find?_eq_none] at h
  intro p hp
  simpa using h p hp

theorem lookup_filter_self_none (reg : Registry) (id : List Char) :
    lookupReg (reg.filter (fun p => !(p.1 == id))) id = none := by
  rw [lookupReg, Option.map_eq_none', List.find?_eq_none]
  intro p hp
  simp only [List.mem_filter] at hp
  simpa using hp.2

/-- Claim C4 (corrected): the claim demands the exact error string
"session not found", but the code produces "Session not found" (capital
S) for both ExecCommand and CloseSession on an unknown id. -/
theorem c4_lowercase_error_counterexample :
    (close_session ([] : Registry) ("x".toList)).2.1.success = false
    ∧ (close_session ([] : Registry) ("x".toList)).2.1.error
        = some ("Session not found".toList)
    ∧ ¬ (close_session ([] : Registry) ("x".toList)).2.1.error
        = some ("session not found".toList)
    ∧ (exec_command ([] : Registry) ("x".toList) [] 1000 true [] (fun _ => []) (fun _ => [])).error
        = some ("Session not found".toList)
    ∧ ¬ (exec_command ([] : Registry) ("x".toList) [] 1000 true [] (fun _ => []) (fun _ => [])).error
        = some ("session not found".toList) := by decide

/-- Claim C4 (amended): for an id not present in the registry, ExecCommand
and CloseSession each return success:false with error "Session not found"
(capital S); for a present id, CloseSession removes the session, fires
the cancel signal, and returns success:true with that session id. -/
theorem c4_session_not_found (reg : Registry) (id : List Char) :
    (lookupReg reg id = none →
      (∀ cmd tm wOk wErr sched clean,
          exec_command reg id cmd tm wOk wErr sched clean
            = { success := false, session_id := some id, output := [], exit_code := none,
                error := some ("Session not found".toList) })
      ∧ close_session reg id
          = (reg, { success := false, session_id := some id, output := [], exit_code := none,
                    error := some ("Session not found".toList) }, false))
    ∧ (∀ s, lookupReg reg id = some s →
        (close_session reg id).2.1
            = { success := true, session_id := some id, output := "Session closed".toList,
                exit_code := none, error := none }
        ∧ (close_session reg id).2.2 = true
        ∧ lookupReg (close_session reg id).1 id = none) := by
  constructor
  · intro h
    constructor
    · intro cmd tm wOk wErr sched clean
      simp [exec_command, h]
    · simp [close_session, removeReg, h]
  · intro s hs
    have hclose : close_session reg id
        = (reg.filter (fun p => !(p.1 == id)),
           { success := true, session_id := some id, output := "Session closed".toList,
             exit_code := none, error := none }, true) := by
      simp [close_session, removeReg, hs]
    rw [hclose]
    exact ⟨rfl, rfl, lookup_filter_self_none reg id⟩

theorem c4_session_not_found_witness :
    (close_session ([(("a".toList), ⟨[]⟩)] : Registry) ("a".toList)).2.2 = true
    ∧ exec_command ([] : Registry) ("x".toList) ("ls".toList) 7 true [] (fun _ => []) (fun _ => [])
        = { success := false, session_id := some ("x".toList), output := [], exit_code := none,
            error := some ("Session not found".toList) } :=
  ⟨((c4_session_not_found [(("a".toList), ⟨[]⟩)] ("a".toList)).2 ⟨[]⟩ (by decide)).2.1,
   ((c4_session_not_found ([] : Registry) ("x".toList)).1 (by decide)).1
     ("ls".toList) 7 true [] (fun _ => []) (fun _ => [])⟩

/-- Claim C5: a successful StartSession registers exactly one new entry
under the freshly generated id, which becomes lookupable, and returns
success:true carrying that id; a failed spawn leaves the registry
unchanged and returns success:false with an error string. -/
theorem c5_start_session_registration (reg : Registry) (id : List Char) (s : Session)
    (hfresh : lookupReg reg id = none) :
    (start_session reg id (Except.ok s)).1.length = reg.length + 1
    ∧ lookupReg (start_session reg id (Except.ok s)).1 id = some s
    ∧ (start_session reg id (Except.ok s)).2.success = true
    ∧ (start_session reg id (Except.ok s)).2.session_id = some id
    ∧ ∀ e, (start_session reg id (Except.error e)).1 = reg
        ∧ (start_session reg id (Except.error e)).2.success = false
        ∧ ((start_session reg id (Except.error e)).2.error).isSome = true := by
  refine ⟨?_, ?_, rfl, rfl, ?_⟩
  · simp only [start_session, insertReg, List.length_cons,
      filter_of_lookup_none reg id hfresh]
  · exact lookupReg_insert_self reg id s
  · intro e
    exact ⟨rfl, rfl, rfl⟩

theorem c5_start_session_registration_witness :
    (start_session ([] : Registry) ("a".toList) (Except.ok ⟨[]⟩)).1.length
        = ([] : Registry).length + 1
    ∧ lookupReg (start_session ([] : Registry) ("a".toList) (Except.ok ⟨[]⟩)).1 ("a".toList)
        = some ⟨[]⟩
    ∧ (start_session ([] : Registry) ("a".toList) (Except.error ("boom".toList))).1 = [] :=
  ⟨(c5_start_session_registration [] ("a".toList) ⟨[]⟩ (by decide)).1,
   (c5_start_session_registration [] ("a".toList) ⟨[]⟩ (by decide)).2.1,
   ((c5_start_session_registration [] ("a".toList) ⟨[]⟩ (by decide)).2.2.2.2
     ("boom".toList)).1⟩

/-! Helper lemmas about trailing newlines. -/

theorem trailingNewlineCount_pos (cmd : List Char) (h : cmd.getLast? = some '\n') :
    trailingNewlineCount cmd = max 1 (trailingNewlineCount cmd) := by
  rw [← List.head?_reverse] at h
  unfold trailingNewlineCount
  cases hr : cmd.reverse with
  | nil => rw [hr] at h; simp at h
  | cons a t =>
    rw [hr] at h
    simp only [List.head?_cons, Option.some.injEq] at h
    subst h
    simp [List.takeWhile, Nat.max_eq_right, Nat.succ_le_succ]

theorem trailingNewlineCount_of_no_newline (cmd : List Char)
    (h : ¬ cmd.getLast? = some '\n') : trailingNewlineCount cmd = 0 := by
  rw [← List.head?_reverse] at h
  unfold trailingNewlineCount
  cases hr : cmd.reverse with
  | nil => simp
  | cons a t =>
    rw [hr] at h
    simp only [List.head?_cons] at h
    have ha : ¬ a = '\n' := by intro hc; exact h (by rw [hc])
    have hb : (a == '\n') = false := by simpa using ha
    simp [List.takeWhile, hb]

/-- Claim C7 (corrected): the claim says a command already ending in two
newlines is written with a single trailing terminator; the code only
appends a newline when one is missing, so "x\n\n" is written unchanged,
with two trailing newlines. -/
theorem c7_two_newlines_counterexample :
    normalizeCommand ("x\n\n".toList) = "x\n\n".toList
    ∧ trailingNewlineCount (normalizeCommand ("x\n\n".toList)) = 2
    ∧ ¬ trailingNewlineCount (normalizeCommand ("x\n\n".toList)) = 1 := by decide

/-- Claim C7 (amended): the text written to the input sink is the command
with a single newline appended when it does not already end in one (a
command already ending in newlines is written unchanged), so the written
text always ends in at least one newline and has exactly
`max 1 (trailing newlines of the command)` trailing newlines; the sink
is flushed after the write. -/
theorem c7_write_normalized (cmd : List Char) :
    writeCommand cmd = [SinkEvent.write (normalizeCommand cmd), SinkEvent.flush]
    ∧ (normalizeCommand cmd).getLast? = some '\n'
    ∧ trailingNewlineCount (normalizeCommand cmd) = max 1 (trailingNewlineCount cmd) := by
  refine ⟨rfl, ?_, ?_⟩
  · unfold normalizeCommand
    split
    · assumption
    · exact List.getLast?_concat _
  · unfold normalizeCommand
    split
    · exact trailingNewlineCount_pos cmd (by assumption)
    · rename_i h
      have h0 := trailingNewlineCount_of_no_newline cmd h
      rw [h0]
      unfold trailingNewlineCount at h0 ⊢
      have h1 : cmd.reverse.takeWhile (fun c => c == '\n') = [] :=
        List.length_eq_zero.mp h0
      rw [List.reverse_append]
      simp [List.takeWhile, h1]

/-- Claim C9 (corrected): an empty or whitespace-only request line makes
the handler return with no response at all, contradicting the claim that
every readable-but-unparsable line gets a failure envelope. -/
theorem c9_blank_line_counterexample :
    handleClientWire (fun _ => []) (fun _ => Except.error [])
      (fun _ => { success := false, session_id := none, output := [], exit_code := none,
                  error := none })
      ("  \n".toList) = [] := by decide

/-- Claim C9 (amended): for a request line whose trimmed text is nonempty
but which fails to parse, the handler emits exactly one newline-terminated
failure envelope carrying a descriptive error; an empty or
whitespace-only line instead ends the handler with no response. -/
theorem c9_parse_failure_envelope (ser : AgentResponse → List Char)
    (parse : List Char → Except (List Char) AgentRequest)
    (process : AgentRequest → AgentResponse) (line e : List Char)
    (h1 : ¬ trimChars line = []) (h2 : parse line = Except.error e) :
    handleClientWire ser parse process line
      = [ser { success := false, session_id := none, output := [], exit_code := none,
               error := some (("Invalid Request: ".toList) ++ e) } ++ ['\n']] := by
  simp [handleClientWire, handle_client, h1, h2]

theorem c9_parse_failure_envelope_witness :
    handleClientWire (fun _ => "resp".toList) (fun _ => Except.error ("bad".toList))
      (fun _ => { success := false, session_id := none, output := [], exit_code := none,
                  error := none })
      ("zzz".toList) = ["resp".toList ++ ['\n']] :=
  c9_parse_failure_envelope (fun _ => "resp".toList) (fun _ => Except.error ("bad".toList))
    (fun _ => { success := false, session_id := none, output := [], exit_code := none,
                error := none })
    ("zzz".toList) ("bad".toList) (by decide) rfl

/-! Characterization of `findSub` as the least occurrence index. -/

theorem findSubGo_eq_map (pat : List Char) (s : List Char) :
    ∀ (k : Nat), findSubGo pat s k = (findSub pat s).map (fun i => i + k) := by
  induction s with
  | nil =>
    intro k
    by_cases hp : pat.isPrefixOf ([] : List Char)
    · simp [findSub, findSubGo, hp]
    · simp [findSub, findSubGo, hp]
  | cons c t ih =>
    intro k
    by_cases hp : pat.isPrefixOf (c :: t)
    · simp [findSub, findSubGo, hp]
    · have hp2 : (pat.isPrefixOf (c :: t) = true) = False := by simp [hp]
      simp only [findSub, findSubGo, hp2, if_false]
      rw [ih (k + 1), ih 1, Option.map_map]
      congr 1
      funext x
      simp only [Function.comp]
      omega

theorem findSub_some_spec (pat : List Char) :
    ∀ (s : List Char) (i : Nat), findSub pat s = some i →
      pat.isPrefixOf (s.drop i) = true
      ∧ ∀ j, j < i → pat.isPrefixOf (s.drop j) = false := by
  intro s
  induction s with
  | nil =>
    intro i h
    by_cases hp : pat.isPrefixOf ([] : List Char)
    · simp only [findSub, findSubGo, if_pos hp, Option.some.injEq] at h
      subst h
      exact ⟨by simpa using hp, fun j hj => absurd hj (Nat.not_lt_zero j)⟩
    · simp [findSub, findSubGo, hp] at h
  | cons c t ih =>
    intro i h
    by_cases hp : pat.isPrefixOf (c :: t)
    · have hi : i = 0 := by
        simp only [findSub, findSubGo, if_pos hp, Option.some.injEq] at h
        omega
      subst hi
      exact ⟨by simpa using hp, fun j hj => absurd hj (Nat.not_lt_zero j)⟩
    · have h2 : findSubGo pat t 1 = some i := by
        simpa [findSub, findSubGo, hp] using h
      rw [findSubGo_eq_map pat t 1] at h2
      cases hft : findSub pat t with
      | none => rw [hft] at h2; simp at h2
      | some i0 =>
        rw [hft] at h2
        simp only [Option.map_some', Option.some.injEq] at h2
        obtain ⟨ha, hb⟩ := ih i0 hft
        subst h2
        constructor
        · simpa using ha
        · intro j hj
          cases j with
          | zero =>
            simpa using Bool.not_eq_true _ ▸ hp
          | succ j0 =>
            have hj0 : j0 < i0 := by omega
            simpa using hb j0 hj0

theorem findSub_none_spec (pat : List Char) :
    ∀ (s : List Char), findSub pat s = none →
      ∀ j, pat.isPrefixOf (s.drop j) = false := by
  intro s
  induction s with
  | nil =>
    intro h j
    by_cases hp : pat.isPrefixOf ([] : List Char)
    · simp [findSub, findSubGo, hp] at h
    · rw [List.drop_nil]
      simpa using Bool.not_eq_true _ ▸ hp
  | cons c t ih =>
    intro h j
    by_cases hp : pat.isPrefixOf (c :: t)
    · simp [findSub, findSubGo, hp] at h
    · have h2 : findSubGo pat t 1 = none := by
        simpa [findSub, findSubGo, hp] using h
      rw [findSubGo_eq_map pat t 1] at h2
      have hft : findSub pat t = none := by
        cases hftx : findSub pat t with
        | none => rfl
        | some i0 => rw [hftx] at h2; simp at h2
      cases j with
      | zero => simpa using Bool.not_eq_true _ ▸ hp
      | succ j0 => simpa using ih hft j0

/-- Claim C2: after escape stripping, if the trimmed command occurs within
the first 100 characters of the cleaned text, everything up through the
(first) occurrence plus any immediately following line terminators is
removed; otherwise the cleaned text is returned unchanged. -/
theorem c2_echo_removal (cmd cleaned : List Char) :
    (∀ i, i < 100 →
        (trimChars cmd).isPrefixOf (cleaned.drop i) = true →
        (∀ j, j < i → (trimChars cmd).isPrefixOf (cleaned.drop j) = false) →
        removeEcho cmd cleaned
          = (cleaned.drop (i + (trimChars cmd).length)).dropWhile isLineTerm)
    ∧ ((∀ i, i < 100 → (trimChars cmd).isPrefixOf (cleaned.drop i) = false) →
        removeEcho cmd cleaned = cleaned) := by
  constructor
  · intro i hi hocc hmin
    cases hf : findSub (trimChars cmd) cleaned with
    | none =>
      rw [findSub_none_spec (trimChars cmd) cleaned hf i] at hocc
      cases hocc
    | some i2 =>
      obtain ⟨ha, hb⟩ := findSub_some_spec (trimChars cmd) cleaned i2 hf
      have hii : i2 = i := by
        rcases Nat.lt_trichotomy i2 i with hlt | heq | hgt
        · rw [hmin i2 hlt] at ha; cases ha
        · exact heq
        · rw [hb i hgt] at hocc; cases hocc
      subst hii
      simp only [removeEcho, hf]
      rw [if_pos hi]
  · intro hno
    cases hf : findSub (trimChars cmd) cleaned with
    | none => simp [removeEcho, hf]
    | some i2 =>
      obtain ⟨ha, _⟩ := findSub_some_spec (trimChars cmd) cleaned i2 hf
      have hge : ¬ i2 < 100 := by
        intro hlt
        rw [hno i2 hlt] at ha
        cases ha
      simp [removeEcho, hf, hge]

theorem c2_echo_removal_witness :
    removeEcho ("ls".toList) ("ls\nhi".toList)
      = (("ls\nhi".toList).drop (0 + (trimChars ("ls".toList)).length)).dropWhile isLineTerm :=
  (c2_echo_removal ("ls".toList) ("ls\nhi".toList)).1 0 (by decide) (by decide)
    (fun j hj => absurd hj (by omega))

theorem head_dropWhile_false (p : Char → Bool) :
    ∀ (l : List Char) (c : Char), (l.dropWhile p).head? = some c → p c = false := by
  intro l
  induction l with
  | nil => intro c hc; simp at hc
  | cons a t ih =>
    intro c hc
    by_cases hp : p a = true
    · rw [List.dropWhile_cons_of_pos hp] at hc
      exact ih c hc
    · rw [List.dropWhile_cons_of_neg hp] at hc
      simp only [List.head?_cons, Option.some.injEq] at hc
      subst hc
      simpa using Bool.not_eq_true _ ▸ hp

/-- Claim C10: when the command trims to the empty string, the echo
removal fires at index 0, so the returned output is the cleaned capture
with all leading carriage returns and newlines removed, and never begins
with a line terminator. -/
theorem c10_empty_command (cmd cleaned : List Char) (h : trimChars cmd = []) :
    removeEcho cmd cleaned = cleaned.dropWhile isLineTerm
    ∧ ∀ c, (removeEcho cmd cleaned).head? = some c → isLineTerm c = false := by
  have hfind : findSub ([] : List Char) cleaned = some 0 := by
    cases cleaned <;> simp [findSub, findSubGo, List.isPrefixOf]
  have hre : removeEcho cmd cleaned = cleaned.dropWhile isLineTerm := by
    simp [removeEcho, h, hfind]
  refine ⟨hre, ?_⟩
  intro c hc
  rw [hre] at hc
  exact head_dropWhile_false isLineTerm cleaned c hc

theorem c10_empty_command_witness :
    trimChars (" ".toList) = []
    ∧ removeEcho (" ".toList) ("\r\nhi".toList) = ("\r\nhi".toList).dropWhile isLineTerm :=
  ⟨by decide, (c10_empty_command (" ".toList) ("\r\nhi".toList) (by decide)).1⟩

theorem removeEcho_nil (cmd : List Char) : removeEcho cmd [] = [] := by
  simp only [removeEcho]
  cases hf : findSub (trimChars cmd) [] with
  | none => rfl
  | some i => split <;> simp

/-! The run lemma for the capture loop: starting from poll `n` with the
state `stateAt` describes and an empty leftover buffer, the loop stops at
the first poll `j ≥ n` satisfying `codeStop`, having accumulated exactly
the scheduled bytes of polls `n, ..., j - 1`. -/

theorem capGo_run (timeout : Nat) (sched : Nat → List Nat) :
    ∀ (fuel n : Nat) (cap : List Nat), timeout < 100 + 50 * (n + fuel) →
      ∃ j, n ≤ j
        ∧ codeStop timeout sched j
        ∧ (∀ m, n ≤ m → m < j → ¬ codeStop timeout sched m)
        ∧ capGo timeout sched fuel n [] cap (stateAt sched n).1 (stateAt sched n).2
            = (cap ++ ((List.range' n (j - n)).map sched).flatten, 100 + 50 * j) := by
  intro fuel
  induction fuel with
  | zero =>
    intro n cap hfuel
    refine ⟨n, le_refl n, Or.inl (by omega), fun m hm1 hm2 => by omega, ?_⟩
    simp [capGo]
  | succ fuel ih =>
    intro n cap hfuel
    by_cases ht : 100 + 50 * n > timeout
    · refine ⟨n, le_refl n, Or.inl ht, fun m hm1 hm2 => by omega, ?_⟩
      simp only [capGo]
      rw [if_pos ht]
      simp
    · by_cases hq : sched n = []
      · by_cases hsil : (stateAt sched n).2 = true ∧ 100 + 50 * n - (stateAt sched n).1 > 300
        · refine ⟨n, le_refl n, Or.inr ⟨hq, hsil.1, hsil.2⟩, fun m hm1 hm2 => by omega, ?_⟩
          simp only [capGo]
          rw [if_neg ht, List.nil_append, if_pos hq, if_pos hsil]
          simp
        · have hstate : stateAt sched (n + 1) = stateAt sched n := by
            simp [stateAt, hq]
          obtain ⟨j, hj1, hj2, hj3, hj4⟩ := ih (n + 1) cap (by omega)
          refine ⟨j, by omega, hj2, ?_, ?_⟩
          · intro m hm1 hm2
            rcases Nat.eq_or_lt_of_le hm1 with hm | hm
            · subst hm
              intro hstop
              rcases hstop with h1 | ⟨_, h2b, h2c⟩
              · exact ht h1
              · exact hsil ⟨h2b, h2c⟩
            · exact hj3 m hm hm2
          · have hrange : (List.range' n (j - n)).map sched
                = sched n :: (List.range' (n + 1) (j - (n + 1))).map sched := by
              rw [show j - n = (j - (n + 1)) + 1 by omega, List.range'_succ]
              simp
            calc capGo timeout sched (fuel + 1) n [] cap (stateAt sched n).1 (stateAt sched n).2
                = capGo timeout sched fuel (n + 1) [] cap
                    (stateAt sched (n + 1)).1 (stateAt sched (n + 1)).2 := by
                  rw [hstate]
                  simp only [capGo]
                  rw [if_neg ht, List.nil_append, if_pos hq, if_neg hsil]
              _ = (cap ++ ((List.range' (n + 1) (j - (n + 1))).map sched).flatten,
                    100 + 50 * j) := hj4
              _ = (cap ++ ((List.range' n (j - n)).map sched).flatten, 100 + 50 * j) := by
                  rw [hrange, hq]
                  simp
      · have hstate : stateAt sched (n + 1) = (100 + 50 * n, true) := by
          simp [stateAt, hq]
        obtain ⟨j, hj1, hj2, hj3, hj4⟩ := ih (n + 1) (cap ++ sched n) (by omega)
        refine ⟨j, by omega, hj2, ?_, ?_⟩
        · intro m hm1 hm2
          rcases Nat.eq_or_lt_of_le hm1 with hm | hm
          · subst hm
            intro hstop
            rcases hstop with h1 | ⟨h2a, _, _⟩
            · exact ht h1
            · exact hq h2a
          · exact hj3 m hm hm2
        · have hrange : (List.range' n (j - n)).map sched
              = sched n :: (List.range' (n + 1) (j - (n + 1))).map sched := by
            rw [show j - n = (j - (n + 1)) + 1 by omega, List.range'_succ]
            simp
          calc capGo timeout sched (fuel + 1) n [] cap (stateAt sched n).1 (stateAt sched n).2
              = capGo timeout sched fuel (n + 1) [] (cap ++ sched n)
                  (stateAt sched (n + 1)).1 (stateAt sched (n + 1)).2 := by
                rw [hstate]
                simp only [capGo]
                rw [if_neg ht, if_neg (by simpa using hq)]
                simp
            _ = ((cap ++ sched n) ++ ((List.range' (n + 1) (j - (n + 1))).map sched).flatten,
                  100 + 50 * j) := hj4
            _ = (cap ++ ((List.range' n (j - n)).map sched).flatten, 100 + 50 * j) := by
                rw [hrange]
                simp [List.append_assoc]

theorem execCapture_run (pre : List Nat) (timeout : Nat) (sched : Nat → List Nat) :
    ∃ j, codeStop timeout sched j ∧ (∀ m, m < j → ¬ codeStop timeout sched m)
      ∧ execCapture pre timeout sched = (((List.range j).map sched).flatten, 100 + 50 * j) := by
  obtain ⟨j, _, hj2, hj3, hj4⟩ :=
    capGo_run timeout sched (timeout / 50 + 1) 0 [] (by omega)
  refine ⟨j, hj2, fun m hm => hj3 m (Nat.zero_le m) hm, ?_⟩
  have hdef : execCapture pre timeout sched
      = capGo timeout sched (timeout / 50 + 1) 0 [] []
          (stateAt sched 0).1 (stateAt sched 0).2 := rfl
  rw [hdef, hj4]
  simp [List.range_eq_range']

/-- Claim C1 (amended): the polling loop stops exactly at the first poll
where either the total elapsed time exceeds timeout_ms, or the buffer is
empty at that poll, at least one non-empty drain has occurred, and more
than 300 ms have passed since the last drain; the accumulator then holds
exactly the bytes drained at the earlier polls. -/
theorem c1_capture_stop (pre : List Nat) (timeout : Nat) (sched : Nat → List Nat) :
    ∃ j, codeStop timeout sched j ∧ (∀ m, m < j → ¬ codeStop timeout sched m)
      ∧ execCapture pre timeout sched = (((List.range j).map sched).flatten, 100 + 50 * j) :=
  execCapture_run pre timeout sched

/-- Claim C1 as stated is false: with `burstSched` (data drained at poll 0,
then a burst arriving at poll 7, 350 ms after the last drain) the claim's
stop condition first holds at poll 7 (elapsed 450 ms), but the loop — whose
silence check only fires when the buffer is empty — drains the burst and
runs on until elapsed time 800 ms. -/
theorem c1_capture_stop_counterexample :
    claimStopSpec 1000 burstSched 7
    ∧ (∀ m, m < 7 → ¬ claimStopSpec 1000 burstSched m)
    ∧ (execCapture [] 1000 burstSched).2 = 100 + 50 * 14
    ∧ ¬ (execCapture [] 1000 burstSched).2 = 100 + 50 * 7 := by decide

/-- Claim C3: the output of a capture contains no bytes from before the
initial buffer clear — the result is independent of the leftover buffer
content, and the accumulator is exactly a concatenation of post-clear
scheduled appends. -/
theorem c3_no_stale_bytes (pre pre2 : List Nat) (timeout : Nat) (sched : Nat → List Nat) :
    execCapture pre timeout sched = execCapture pre2 timeout sched
    ∧ ∃ j, (execCapture pre timeout sched).1 = ((List.range j).map sched).flatten := by
  refine ⟨rfl, ?_⟩
  obtain ⟨j, _, _, hj⟩ := execCapture_run pre timeout sched
  exact ⟨j, by rw [hj]⟩

/-- Claim C8: the capture phase terminates and its discrete duration
(warm-up plus poll intervals) never exceeds timeout_ms + 100 ms. -/
theorem capGo_le (timeout : Nat) (sched : Nat → List Nat) :
    ∀ (fuel n : Nat) (buf cap : List Nat) (ld : Nat) (hd : Bool),
      100 + 50 * n ≤ timeout + 100 →
      (capGo timeout sched fuel n buf cap ld hd).2 ≤ timeout + 100 := by
  intro fuel
  induction fuel with
  | zero =>
    intro n buf cap ld hd h
    simpa [capGo] using h
  | succ fuel ih =>
    intro n buf cap ld hd h
    simp only [capGo]
    by_cases ht : 100 + 50 * n > timeout
    · rw [if_pos ht]
      simpa using h
    · rw [if_neg ht]
      by_cases hq : buf ++ sched n = []
      · rw [if_pos hq]
        by_cases hs : hd = true ∧ 100 + 50 * n - ld > 300
        · rw [if_pos hs]
          simpa using h
        · rw [if_neg hs]
          exact ih (n + 1) [] cap ld hd (by omega)
      · rw [if_neg hq]
        exact ih (n + 1) [] (cap ++ (buf ++ sched n)) (100 + 50 * n) true (by omega)

theorem c8_capture_duration (pre : List Nat) (timeout : Nat) (sched : Nat → List Nat) :
    (execCapture pre timeout sched).2 ≤ timeout + 100 :=
  capGo_le timeout sched (timeout / 50 + 1) 0 [] [] 100 false (by omega)

theorem join_map_nil_aux (l : List Nat) (f : Nat → List Nat) (h : ∀ n, f n = []) :
    (l.map f).flatten = [] := by
  induction l with
  | nil => rfl
  | cons a t ih => simp [h a, ih]

theorem execCapture_fst_nil (pre : List Nat) (timeout : Nat) (sched : Nat → List Nat)
    (h : ∀ n, sched n = []) : (execCapture pre timeout sched).1 = [] := by
  obtain ⟨j, _, _, hj⟩ := execCapture_run pre timeout sched
  rw [hj]
  exact join_map_nil_aux (List.range j) sched h

/-- Claim C6: on a registered session whose input write succeeds, the
hard timeout is not an error — the response is success:true with no error
regardless of the schedule, and a command producing no output yields the
empty output (given that the escape filter maps empty bytes to empty
text, as strip_ansi_escapes does). -/
theorem c6_timeout_not_error (reg : Registry) (id cmd : List Char) (tm : Nat)
    (wErr : List Char) (sched : Nat → List Nat) (clean : List Nat → List Char) (s : Session)
    (h1 : lookupReg reg id = some s) :
    (exec_command reg id cmd tm true wErr sched clean).success = true
    ∧ (exec_command reg id cmd tm true wErr sched clean).error = none
    ∧ ((∀ n, sched n = []) → clean [] = [] →
        (exec_command reg id cmd tm true wErr sched clean).output = []) := by
  have hexec : exec_command reg id cmd tm true wErr sched clean
      = { success := true, session_id := some id,
          output := removeEcho cmd (clean (execCapture s.outputQueue tm sched).1),
          exit_code := none, error := none } := by
    simp [exec_command, h1]
  refine ⟨by rw [hexec], by rw [hexec], ?_⟩
  intro hs hc
  rw [hexec]
  simp only
  rw [execCapture_fst_nil s.outputQueue tm sched hs, hc]
  exact removeEcho_nil cmd

theorem c6_timeout_not_error_witness :
    (exec_command ([(("a".toList), ⟨[5]⟩)] : Registry) ("a".toList) ("ls".toList) 0 true []
        (fun _ => []) (fun _ => [])).success = true
    ∧ (exec_command ([(("a".toList), ⟨[5]⟩)] : Registry) ("a".toList) ("ls".toList) 0 true []
        (fun _ => []) (fun _ => [])).output = [] := by
  have h := c6_timeout_not_error [(("a".toList), ⟨[5]⟩)] ("a".toList) ("ls".toList) 0 []
    (fun _ => []) (fun _ => []) ⟨[5]⟩ (by decide)
  exact ⟨h.1, h.2.2 (fun _ => rfl) rfl⟩

end InteractiveShell
